import Mathlib

/-!
Shallow embedding of the `thread_scoped_ref` crate (files `src/scope.rs`,
`src/helper.rs`, `src/lib.rs`).

A `Scope<T>` is `RefCell<Option<*const T>>`.  The stored raw pointer is
modeled by the value it points to (claims speak of value-equality), and the
`RefCell`'s dynamic borrow state is modeled explicitly so that the
borrow-failure panic branch of `borrow` / `borrow_mut` is representable.
Client code — the closures handed to `Scope::scoped` and `Scope::with` —
is modeled by a small deep embedding `Prog`; its interpreter `run` threads
the cell state together with an event log and mirrors `Scope::scoped` /
`Scope::with` step by step, including the `CleanupOnDrop` guard, the
explicit `cleanup()` call at the end of the normal path, and the second
`cleanup()` executed by the `Drop` impl when the guard goes out of scope.
-/

namespace ThreadScopedRef

/-- Abnormal terminations: a panic raised by client code (with its message),
or the panic raised by `RefCell::borrow` / `RefCell::borrow_mut` on a
borrow conflict. -/
inductive PanicKind where
  | userPanic : String → PanicKind
  | borrowPanic : PanicKind
deriving DecidableEq

/-- Result of running a body or an operation: normal return or panic. -/
inductive Outcome (R : Type) where
  | ok : R → Outcome R
  | panic : PanicKind → Outcome R
deriving DecidableEq

/-- Observable events of one execution: `enter r` when `scoped` publishes
`r` (the `self.set(Some(value))` line), `read v` when `Scope::with` hands
the snapshot `v` to its closure, and `restore v` when a `CleanupOnDrop`
record actually executes its restore action `scope.set(self.previous_value)`. -/
inductive Event (T : Type) where
  | enter : T → Event T
  | read : Option T → Event T
  | restore : Option T → Event T
deriving DecidableEq

/-- `pub struct Scope<T>(RefCell<Option<*const T>>)`: `current` is the
`Option<*const T>` payload (pointer modeled by pointee value), and
`sharedBorrows` / `mutBorrowed` are the `RefCell`'s dynamic borrow flags. -/
structure Scope (T : Type) where
  current : Option T
  sharedBorrows : Nat
  mutBorrowed : Bool
deriving DecidableEq

/-- `impl Default for Scope`: `Self(RefCell::new(None))` — empty payload,
no outstanding borrows. -/
def Scope.default (T : Type) : Scope T :=
  { current := none, sharedBorrows := 0, mutBorrowed := false }

/-- The `RefCell` has no outstanding borrow (the state between any two of
the crate's own operations, each of which scopes its guards internally). -/
def Scope.free {T : Type} (s : Scope T) : Prop :=
  s.sharedBorrows = 0 ∧ s.mutBorrowed = false

/-- `fn set(&self, value: Option<&T>)`: `borrow_mut` panics if any borrow
is outstanding; otherwise the payload is overwritten and the mutable guard
is released before the function returns.  `none` is the borrow panic. -/
def Scope.set {T : Type} (s : Scope T) (value : Option T) : Option (Scope T) :=
  if s.sharedBorrows = 0 ∧ s.mutBorrowed = false then
    some { current := value, sharedBorrows := 0, mutBorrowed := false }
  else
    none

/-- `fn get(&self) -> Option<&T>`: `borrow` panics if a mutable borrow is
outstanding; otherwise it returns the snapshot of the payload and releases
the shared guard before returning (the returned reference is recovered from
the raw pointer, not borrowed from the `RefCell`). -/
def Scope.get {T : Type} (s : Scope T) : Option (Option T) :=
  if s.mutBorrowed = false then some s.current else none

/-- `fn take(&self) -> Option<&T>`: `borrow_mut` panics if any borrow is
outstanding; otherwise it moves the payload out (leaving `None`) and
releases the mutable guard before returning. -/
def Scope.take {T : Type} (s : Scope T) : Option (Option T × Scope T) :=
  if s.sharedBorrows = 0 ∧ s.mutBorrowed = false then
    some (s.current, { current := none, sharedBorrows := 0, mutBorrowed := false })
  else
    none

/-- `struct CleanupOnDrop<'a, T> { scope: Option<&'a Scope<T>>, previous_value: Option<&'a T> }`.
The `scope` field only matters through being `Some` or `None`, so it is
modeled as a `Bool`. -/
structure CleanupOnDrop (T : Type) where
  scope : Bool
  previous_value : Option T

/-- `fn cleanup(&mut self)`: `if let Some(scope) = self.scope.take() { scope.set(self.previous_value) }`.
Returns the mutated record, the mutated cell and the events; `none` is the
borrow panic inside `scope.set`.  When `scope` was already taken the call
is a no-op and emits no `restore` event. -/
def CleanupOnDrop.cleanup {T : Type} (c : CleanupOnDrop T) (s : Scope T) :
    Option (CleanupOnDrop T × Scope T × List (Event T)) :=
  if c.scope then
    match s.set c.previous_value with
    | some s' =>
      some ({ scope := false, previous_value := c.previous_value }, s',
            [Event.restore c.previous_value])
    | none => none
  else
    some (c, s, [])

/-- Deep embedding of client code over one thread's cell.  `scoped v b`
is `Scope::scoped(&v, b)`; `withFn k` is `Scope::with(k)` where `k`
receives the snapshot (so the body of a read may itself reenter the cell);
`panicWith m` is `panic!(m)`; `seq` is Rust's `;` sequencing. -/
inductive Prog (T : Type) : Type → Type 1 where
  | pure : {R : Type} → R → Prog T R
  | panicWith : {R : Type} → String → Prog T R
  | scoped : {R : Type} → T → Prog T R → Prog T R
  | withFn : {R : Type} → (Option T → Prog T R) → Prog T R
  | seq : {A B : Type} → Prog T A → (A → Prog T B) → Prog T B

/-- Interpreter for `Prog`, mirroring `src/scope.rs`:

* `withFn k` is `Scope::with`: `let value = self.get(); fun(value)`.
* `scoped v body` is `Scope::scoped`: build the guard
  `CleanupOnDrop { scope: Some(self), previous_value: self.take() }`,
  `self.set(Some(value))`, run the body; on normal return call
  `cleanup_on_drop.cleanup()` explicitly and then again via `Drop` when
  the guard leaves scope; on panic the unwinding runs `cleanup` once via
  `Drop` and the panic is re-propagated unchanged.

A borrow panic raised by `take` before the guard exists, or on a branch
where unwinding would panic again inside `cleanup` (a double panic, i.e.
an abort), stops execution immediately. -/
def run {T : Type} : {R : Type} → Prog T R → Scope T →
    Outcome R × Scope T × List (Event T)
  | _, .pure r, s => (.ok r, s, [])
  | _, .panicWith m, s => (.panic (.userPanic m), s, [])
  | _, .withFn k, s =>
    match s.get with
    | none => (.panic .borrowPanic, s, [])
    | some v =>
      match run (k v) s with
      | (o, s', l) => (o, s', Event.read v :: l)
  | _, .seq p k, s =>
    match run p s with
    | (.ok a, s', l) =>
      match run (k a) s' with
      | (o, s'', l') => (o, s'', l ++ l')
    | (.panic pk, s', l) => (.panic pk, s', l)
  | _, .scoped v body, s =>
    match s.take with
    | none => (.panic .borrowPanic, s, [])
    | some (prev, s1) =>
      match s1.set (some v) with
      | none => (.panic .borrowPanic, s1, [])
      | some s2 =>
        match run body s2 with
        | (.ok r, s3, l) =>
          match CleanupOnDrop.cleanup { scope := true, previous_value := prev } s3 with
          | none => (.panic .borrowPanic, s3, Event.enter v :: l)
          | some (c1, s4, l1) =>
            match CleanupOnDrop.cleanup c1 s4 with
            | none => (.panic .borrowPanic, s4, Event.enter v :: (l ++ l1))
            | some (_, s5, l2) => (.ok r, s5, Event.enter v :: (l ++ l1 ++ l2))
        | (.panic pk, s3, l) =>
          match CleanupOnDrop.cleanup { scope := true, previous_value := prev } s3 with
          | none => (.panic .borrowPanic, s3, Event.enter v :: l)
          | some (_, s4, l1) => (.panic pk, s4, Event.enter v :: (l ++ l1))

/-- Test for a publish event. -/
def Event.isEnter {T : Type} : Event T → Bool
  | .enter _ => true
  | _ => false

/-- Test for a restore event. -/
def Event.isRestore {T : Type} : Event T → Bool
  | .restore _ => true
  | _ => false

/-- Nested `scoped` calls: `nest [r1, r2, …] p` is
`scoped(r1, scoped(r2, … p …))`. -/
def nest {T R : Type} : List T → Prog T R → Prog T R
  | [], p => p
  | r :: rs, p => .scoped r (nest rs p)

/-- The reference active in the innermost scope: the last published one,
or the ambient value `c` when no scope is entered. -/
def innermost {T : Type} (c : Option T) : List T → Option T
  | [] => c
  | r :: rs => innermost (some r) rs

/-- Expected event log of `nest rs p` started with ambient value `c`,
where `inner` is the body's own log: every level contributes its `enter`
before and its `restore` — carrying its immediate predecessor's value —
after, so restores happen in reverse activation order. -/
def nestTrace {T : Type} (c : Option T) : List T → List (Event T) → List (Event T)
  | [], inner => inner
  | r :: rs, inner => .enter r :: (nestTrace (some r) rs inner ++ [.restore c])

/-- Per-thread memory of the thread-local registry: one `Scope` cell per
declared slot identifier.  `std::thread_local!` (the expansion of the
`thread_scoped_ref!` macro) initializes each cell lazily with
`Scope::default()`. -/
def Mem (T : Type) : Type := Nat → Scope T

/-- Freshly initialized per-thread memory: every slot's cell is empty. -/
def Mem.init (T : Type) : Mem T := fun _ => Scope.default T

/-- The whole registry: one independently initialized memory per thread. -/
def Sys (T : Type) : Type := Nat → Mem T

/-- Initial registry: every thread starts from fresh memory. -/
def Sys.init (T : Type) : Sys T := fun _ => Mem.init T

/-- `pub fn scoped(key, value, fun)` from `src/helper.rs`:
`key.with(|scope| scope.scoped(value, fun))` — look up the calling
thread's cell for the slot and delegate to `Scope::scoped`. -/
def helperScoped {T R : Type} (t slot : Nat) (sys : Sys T) (value : T)
    (body : Prog T R) : Outcome R × Sys T × List (Event T) :=
  match run (.scoped value body) (sys t slot) with
  | (o, s', l) => (o, Function.update sys t (Function.update (sys t) slot s'), l)

/-- `pub fn with(key, fun)` from `src/helper.rs`:
`key.with(|scope| scope.with(fun))` — look up the calling thread's cell
for the slot and delegate to `Scope::with`. -/
def helperWith {T R : Type} (t slot : Nat) (sys : Sys T)
    (k : Option T → Prog T R) : Outcome R × Sys T × List (Event T) :=
  match run (.withFn k) (sys t slot) with
  | (o, s', l) => (o, Function.update sys t (Function.update (sys t) slot s'), l)

/-- One primitive cell access, the granularity at which executions of
different threads interleave. -/
inductive CellOp (T : Type) where
  | opSet : Option T → CellOp T
  | opGet : CellOp T
  | opTake : CellOp T

/-- Effect of a primitive access on the cell it addresses (`none` is the
borrow panic). -/
def CellOp.apply {T : Type} : CellOp T → Scope T → Option (Scope T)
  | .opSet v, s => s.set v
  | .opGet, s => (s.get).map fun _ => s
  | .opTake, s => (s.take).map Prod.snd

/-- Run a list of (slot, access) pairs against one thread's memory. -/
def execMem {T : Type} : List (Nat × CellOp T) → Mem T → Option (Mem T)
  | [], m => some m
  | (slot, op) :: rest, m =>
    match op.apply (m slot) with
    | none => none
    | some s' => execMem rest (Function.update m slot s')

/-- Run an interleaved trace of (thread, slot, access) triples against the
registry: each access touches only the cell of the thread that issues it. -/
def execSys {T : Type} : List (Nat × Nat × CellOp T) → Sys T → Option (Sys T)
  | [], sys => some sys
  | (t, slot, op) :: rest, sys =>
    match op.apply (sys t slot) with
    | none => none
    | some s' => execSys rest (Function.update sys t (Function.update (sys t) slot s'))

/-- The subtrace of accesses issued by thread `t`. -/
def ownOps {T : Type} (t : Nat) (trace : List (Nat × Nat × CellOp T)) :
    List (Nat × CellOp T) :=
  (trace.filter fun e => e.1 == t).map Prod.snd

/-- A borrow-free state is determined by its payload. -/
theorem Scope.free_eq {T : Type} {s : Scope T} (h : s.free) :
    s = ⟨s.current, 0, false⟩ := by
  obtain ⟨h1, h2⟩ := h
  cases s
  simp_all

/-- Master lemma: from a borrow-free state, every program leaves the cell in
exactly the state it found it in (every mutation is a `scoped` that restores
on all paths) and never reaches the `RefCell` borrow-failure panic (each of
`get` / `set` / `take` releases its guard before returning, and `with`
takes its snapshot before invoking the body). -/
theorem run_free {T R : Type} (p : Prog T R) : ∀ (cur : Option T),
    (run p ⟨cur, 0, false⟩).2.1 = ⟨cur, 0, false⟩ ∧
    (run p ⟨cur, 0, false⟩).1 ≠ Outcome.panic PanicKind.borrowPanic := by
  induction p with
  | pure r => intro cur; exact ⟨rfl, by simp [run]⟩
  | panicWith m => intro cur; exact ⟨rfl, by simp [run]⟩
  | withFn k ih =>
    intro cur
    obtain ⟨h1, h2⟩ := ih cur cur
    rcases hrun : run (k cur) ⟨cur, 0, false⟩ with ⟨o, s', l⟩
    rw [hrun] at h1 h2
    simp only [run, Scope.get, if_pos rfl, hrun]
    exact ⟨h1, h2⟩
  | seq p k ihp ihk =>
    intro cur
    obtain ⟨hp1, hp2⟩ := ihp cur
    rcases hp : run p ⟨cur, 0, false⟩ with ⟨o, s', l⟩
    rw [hp] at hp1 hp2
    subst hp1
    cases o with
    | ok a =>
      obtain ⟨hk1, hk2⟩ := ihk a cur
      rcases hk : run (k a) ⟨cur, 0, false⟩ with ⟨o', s'', l'⟩
      rw [hk] at hk1 hk2
      simp only [run, hp, hk]
      exact ⟨hk1, hk2⟩
    | panic pk =>
      have hpk : pk ≠ PanicKind.borrowPanic := fun hcontra => hp2 (by rw [hcontra])
      simp [run, hp, hpk]
  | «scoped» v body ih =>
    intro cur
    obtain ⟨hb1, hb2⟩ := ih (some v)
    rcases hb : run body ⟨some v, 0, false⟩ with ⟨o, s3, l⟩
    rw [hb] at hb1 hb2
    subst hb1
    cases o with
    | ok r =>
      simp [run, Scope.take, Scope.set, CleanupOnDrop.cleanup, hb]
    | panic pk =>
      have hpk : pk ≠ PanicKind.borrowPanic := by
        intro hcontra
        exact hb2 (by rw [hcontra])
      simp [run, Scope.take, Scope.set, CleanupOnDrop.cleanup, hb, hpk]

/-- From a borrow-free state the final state of a run equals the initial one. -/
theorem run_state_eq {T R : Type} (p : Prog T R) (s : Scope T) (h : s.free) :
    (run p s).2.1 = s := by
  rw [Scope.free_eq h]
  exact (run_free p s.current).1

/-- From a borrow-free state a run never ends in the borrow-failure panic. -/
theorem run_no_borrow {T R : Type} (p : Prog T R) (s : Scope T) (h : s.free) :
    (run p s).1 ≠ Outcome.panic PanicKind.borrowPanic := by
  rw [Scope.free_eq h]
  exact (run_free p s.current).2

/-- Unfolding of `Scope::scoped` on a borrow-free state: the body runs on
the cell holding the published value, its outcome (normal or panic) is
propagated unchanged, the initial state is restored on both paths, and
exactly one `restore` event — carrying the captured previous value — is
appended after the body's events. -/
theorem run_scoped_eq {T R : Type} (v : T) (body : Prog T R) (s : Scope T)
    (h : s.free) :
    run (.scoped v body) s =
      ((run body ⟨some v, 0, false⟩).1, s,
        Event.enter v ::
          ((run body ⟨some v, 0, false⟩).2.2 ++ [Event.restore s.current])) := by
  obtain ⟨hb1, hb2⟩ := run_free body (some v)
  rcases hb : run body ⟨some v, 0, false⟩ with ⟨o, s3, l⟩
  rw [hb] at hb1 hb2
  subst hb1
  rw [Scope.free_eq h]
  cases o with
  | ok r =>
    simp [run, Scope.take, Scope.set, CleanupOnDrop.cleanup, hb]
  | panic pk =>
    simp [run, Scope.take, Scope.set, CleanupOnDrop.cleanup, hb]

/-- Unfolding of `Scope::with` on a borrow-free state: the body receives the
snapshot of the current value, and the `read` event records that snapshot. -/
theorem run_withFn_eq {T R : Type} (k : Option T → Prog T R) (s : Scope T)
    (h : s.free) :
    run (.withFn k) s =
      ((run (k s.current) s).1, (run (k s.current) s).2.1,
        Event.read s.current :: (run (k s.current) s).2.2) := by
  rw [Scope.free_eq h]
  rcases hrun : run (k s.current) ⟨s.current, 0, false⟩ with ⟨o, s', l⟩
  simp only [run, Scope.get, if_pos rfl, hrun]

/-- Running nested scopes from a borrow-free state: the body runs with the
innermost reference published, the state is restored, and the log is the
LIFO `nestTrace`. -/
theorem run_nest {T R : Type} (p : Prog T R) : ∀ (rs : List T) (cur : Option T),
    run (nest rs p) ⟨cur, 0, false⟩ =
      ((run p ⟨innermost cur rs, 0, false⟩).1, ⟨cur, 0, false⟩,
        nestTrace cur rs (run p ⟨innermost cur rs, 0, false⟩).2.2) := by
  intro rs
  induction rs with
  | nil =>
    intro cur
    rcases hp : run p ⟨cur, 0, false⟩ with ⟨o, s', l⟩
    have h1 := (run_free p cur).1
    rw [hp] at h1
    subst h1
    simp [nest, innermost, nestTrace, hp]
  | cons r rs ih =>
    intro cur
    have hs := run_scoped_eq r (nest rs p) (⟨cur, 0, false⟩ : Scope T) ⟨rfl, rfl⟩
    rw [show nest (r :: rs) p = .scoped r (nest rs p) from rfl, hs, ih (some r)]
    simp [innermost, nestTrace]

/-- Every run from a borrow-free state logs exactly as many `restore`
events as `enter` events: each publication is restored exactly once. -/
theorem run_count_eq {T R : Type} (p : Prog T R) : ∀ (cur : Option T),
    ((run p ⟨cur, 0, false⟩).2.2).countP Event.isEnter =
    ((run p ⟨cur, 0, false⟩).2.2).countP Event.isRestore := by
  induction p with
  | pure r => intro cur; simp [run]
  | panicWith m => intro cur; simp [run]
  | withFn k ih =>
    intro cur
    rw [run_withFn_eq k ⟨cur, 0, false⟩ ⟨rfl, rfl⟩]
    simp only [List.countP_cons, Event.isEnter, Event.isRestore]
    have := ih cur cur
    simp_all
  | seq p k ihp ihk =>
    intro cur
    rcases hp : run p ⟨cur, 0, false⟩ with ⟨o, s', l⟩
    have h1 := (run_free p cur).1
    rw [hp] at h1
    subst h1
    have hcp := ihp cur
    rw [hp] at hcp
    cases o with
    | ok a =>
      have hck := ihk a cur
      rcases hk : run (k a) ⟨cur, 0, false⟩ with ⟨o', s'', l'⟩
      rw [hk] at hck
      have hcp' : l.countP Event.isEnter = l.countP Event.isRestore := hcp
      have hck' : l'.countP Event.isEnter = l'.countP Event.isRestore := hck
      simp only [run, hp, hk, List.countP_append]
      omega
    | panic pk =>
      simp only [run, hp]
      exact hcp
  | «scoped» v body ih =>
    intro cur
    rw [run_scoped_eq v body ⟨cur, 0, false⟩ ⟨rfl, rfl⟩]
    have := ih (some v)
    simp only [List.countP_cons, List.countP_append, Event.isEnter, Event.isRestore]
    simp_all

/-- On a borrow-free cell every primitive access succeeds and leaves the
cell borrow-free. -/
theorem CellOp.apply_free {T : Type} (op : CellOp T) (s : Scope T) (h : s.free) :
    ∃ s', op.apply s = some s' ∧ s'.free := by
  obtain ⟨h1, h2⟩ := h
  cases op with
  | opSet v =>
    refine ⟨⟨v, 0, false⟩, ?_, ⟨rfl, rfl⟩⟩
    simp [CellOp.apply, Scope.set, h1, h2]
  | opGet =>
    refine ⟨s, ?_, ⟨h1, h2⟩⟩
    simp [CellOp.apply, Scope.get, h2]
  | opTake =>
    refine ⟨⟨none, 0, false⟩, ?_, ⟨rfl, rfl⟩⟩
    simp [CellOp.apply, Scope.take, h1, h2]

/-- Localization: from an all-free registry, an interleaved trace always
succeeds, keeps every cell borrow-free, and leaves each thread's memory in
exactly the state its own subtrace alone produces. -/
theorem execSys_localizes {T : Type} :
    ∀ (trace : List (Nat × Nat × CellOp T)) (sys : Sys T),
    (∀ u sl, (sys u sl).free) →
    ∃ sys', execSys trace sys = some sys' ∧ (∀ u sl, (sys' u sl).free) ∧
      ∀ t, execMem (ownOps t trace) (sys t) = some (sys' t) := by
  intro trace
  induction trace with
  | nil =>
    intro sys hfree
    exact ⟨sys, rfl, hfree, fun t => rfl⟩
  | cons e rest ih =>
    intro sys hfree
    rcases e with ⟨t0, sl0, op⟩
    obtain ⟨s0, happ, hs0free⟩ := CellOp.apply_free op (sys t0 sl0) (hfree t0 sl0)
    have hfree1 : ∀ u sl,
        ((Function.update sys t0 (Function.update (sys t0) sl0 s0)) u sl).free := by
      intro u sl
      by_cases hu : u = t0
      · subst hu
        rw [Function.update_same]
        by_cases hsl : sl = sl0
        · subst hsl
          rw [Function.update_same]
          exact hs0free
        · rw [Function.update_noteq hsl]
          exact hfree u sl
      · rw [Function.update_noteq hu]
        exact hfree u sl
    obtain ⟨sys', hexec, hfree', hloc⟩ :=
      ih (Function.update sys t0 (Function.update (sys t0) sl0 s0)) hfree1
    refine ⟨sys', ?_, hfree', ?_⟩
    · simp only [execSys, happ]
      exact hexec
    · intro t
      by_cases ht : t = t0
      · subst ht
        have hown : ownOps t ((t, sl0, op) :: rest) = (sl0, op) :: ownOps t rest := by
          simp [ownOps]
        rw [hown]
        simp only [execMem, happ]
        have := hloc t
        rw [Function.update_same] at this
        exact this
      · have hown : ownOps t ((t0, sl0, op) :: rest) = ownOps t rest := by
          simp [ownOps, Ne.symm ht]
        rw [hown]
        have := hloc t
        rw [Function.update_noteq ht] at this
        exact this

/-- Sequencing after a normally returning first component. -/
theorem run_seq_ok {T A B : Type} (p : Prog T A) (k : A → Prog T B) (s : Scope T)
    (a : A) (s' : Scope T) (l : List (Event T))
    (hp : run p s = (.ok a, s', l)) :
    run (.seq p k) s =
      ((run (k a) s').1, (run (k a) s').2.1, l ++ (run (k a) s').2.2) := by
  rcases hk : run (k a) s' with ⟨o, s'', l'⟩
  simp only [run, hp, hk]

/-- C1: when the body of `publish_and_run`/`scoped(r, b)` panics, the call
restores the cell to the exact pre-call state (the final state equals the
state immediately before the call, and the one `restore` event — carrying
the captured pre-call value — happens before the panic leaves the call)
and then propagates the panic to its caller unchanged; a subsequent read
on the same cell observes the pre-call value. -/
theorem c1_restore_on_panic {T R : Type} (r : T) (body : Prog T R) (s : Scope T)
    (m : String) (h : s.free)
    (hb : (run body ⟨some r, 0, false⟩).1 = .panic (.userPanic m)) :
    run (.scoped r body) s =
      (.panic (.userPanic m), s,
        Event.enter r ::
          ((run body ⟨some r, 0, false⟩).2.2 ++ [Event.restore s.current])) ∧
    (run (.withFn (Prog.pure (T := T))) s).1 = .ok s.current := by
  constructor
  · rw [run_scoped_eq r body s h, hb]
  · rw [run_withFn_eq Prog.pure s h]
    rfl

/-- Witness for C1 at a concrete input: a panicking body under a published
`0` on a fresh cell. -/
theorem c1_witness :
    ((Scope.default Nat).free ∧
      (run (T := Nat) (R := Unit) (.panicWith "boom") ⟨some 0, 0, false⟩).1 =
        .panic (.userPanic "boom")) ∧
    (run (T := Nat) (R := Unit) (.scoped 0 (.panicWith "boom")) (Scope.default Nat) =
        (.panic (.userPanic "boom"), Scope.default Nat,
          [Event.enter 0, Event.restore none]) ∧
      (run (T := Nat) (.withFn Prog.pure) (Scope.default Nat)).1 = .ok none) :=
  ⟨⟨⟨rfl, rfl⟩, rfl⟩,
    c1_restore_on_panic 0 (.panicWith "boom") (Scope.default Nat) "boom"
      ⟨rfl, rfl⟩ rfl⟩

/-- C2: while `publish_and_run`/`scoped(r, ·)` is running a body that reads
the same cell on the same thread, the read passes exactly `some r` —
value-equal to the published reference — to the reading body (visible in
the `read` event); the body's outcome is propagated and the pre-call state
restored. -/
theorem c2_publish_visible {T R : Type} (r : T) (k : Option T → Prog T R)
    (s : Scope T) (h : s.free) :
    run (.scoped r (.withFn k)) s =
      ((run (k (some r)) ⟨some r, 0, false⟩).1, s,
        Event.enter r :: Event.read (some r) ::
          ((run (k (some r)) ⟨some r, 0, false⟩).2.2 ++
            [Event.restore s.current])) := by
  rw [run_scoped_eq r (.withFn k) s h,
    run_withFn_eq k (⟨some r, 0, false⟩ : Scope T) ⟨rfl, rfl⟩]
  rfl

/-- Witness for C2 at a concrete input: publish `5` on a fresh cell and
read it back inside the body. -/
theorem c2_witness :
    (Scope.default Nat).free ∧
    run (T := Nat) (.scoped 5 (.withFn Prog.pure)) (Scope.default Nat) =
      (.ok (some 5), Scope.default Nat,
        [Event.enter 5, Event.read (some 5), Event.restore none]) :=
  ⟨⟨rfl, rfl⟩, c2_publish_visible 5 Prog.pure (Scope.default Nat) ⟨rfl, rfl⟩⟩

/-- C3: when the body returns normally, `publish_and_run`/`scoped(r, b)`
leaves the cell's observable state exactly as it was immediately before
the call (for any prior state, present or absent), and a read immediately
afterwards observes that pre-call state. -/
theorem c3_restore_on_normal_return {T R : Type} (r : T) (body : Prog T R)
    (s : Scope T) (v : R) (h : s.free)
    (hb : (run body ⟨some r, 0, false⟩).1 = .ok v) :
    run (.scoped r body) s =
      (.ok v, s,
        Event.enter r ::
          ((run body ⟨some r, 0, false⟩).2.2 ++ [Event.restore s.current])) ∧
    (run (.seq (.scoped r body) fun _ => .withFn Prog.pure) s).1 =
      .ok s.current := by
  have h2 : run (.scoped r body) s =
      (.ok v, s,
        Event.enter r ::
          ((run body ⟨some r, 0, false⟩).2.2 ++ [Event.restore s.current])) := by
    rw [run_scoped_eq r body s h, hb]
  refine ⟨h2, ?_⟩
  rw [run_seq_ok _ _ _ _ _ _ h2]
  rw [run_withFn_eq Prog.pure s h]
  rfl

/-- Witness for C3 at a concrete input: a body returning `42` under a
published `1` on a fresh cell; the cell is empty again afterwards. -/
theorem c3_witness :
    ((Scope.default Nat).free ∧
      (run (T := Nat) (.pure 42) ⟨some 1, 0, false⟩).1 = .ok 42) ∧
    (run (T := Nat) (.scoped 1 (.pure 42)) (Scope.default Nat) =
        (.ok 42, Scope.default Nat, [Event.enter 1, Event.restore none]) ∧
      (run (T := Nat) (.seq (.scoped 1 (.pure 42)) fun _ => .withFn Prog.pure)
          (Scope.default Nat)).1 = .ok none) :=
  ⟨⟨⟨rfl, rfl⟩, rfl⟩,
    c3_restore_on_normal_return 1 (.pure 42) (Scope.default Nat) 42 ⟨rfl, rfl⟩ rfl⟩

/-- C6: a freshly created cell — what the `std::thread_local!` expansion of
`thread_scoped_ref!` hands a thread on its first use of a slot — is empty,
and a read on it passes `none` to its body. -/
theorem c6_default_empty {T R : Type} (k : Option T → Prog T R) :
    (∀ t slot : Nat, Sys.init T t slot = Scope.default T) ∧
    (Scope.default T).current = none ∧
    run (.withFn k) (Scope.default T) =
      ((run (k none) (Scope.default T)).1, (run (k none) (Scope.default T)).2.1,
        Event.read none :: (run (k none) (Scope.default T)).2.2) := by
  refine ⟨fun t slot => rfl, rfl, ?_⟩
  exact run_withFn_eq k (Scope.default T) ⟨rfl, rfl⟩

/-- C7: a read (`Scope::with`, and thus the `with` helper) passes the
cell's current value — present or absent — to the body as a snapshot and
does not mutate the cell: for every body, the cell's value after the read
completes equals its value before. -/
theorem c7_read_does_not_mutate {T R : Type} (k : Option T → Prog T R)
    (s : Scope T) (h : s.free) :
    run (.withFn k) s =
      ((run (k s.current) s).1, (run (k s.current) s).2.1,
        Event.read s.current :: (run (k s.current) s).2.2) ∧
    (run (.withFn k) s).2.1 = s := by
  refine ⟨run_withFn_eq k s h, ?_⟩
  rw [run_withFn_eq k s h]
  exact run_state_eq (k s.current) s h

/-- Witness for C7 at a concrete input: reading a cell holding `3` returns
the snapshot and leaves the cell unchanged. -/
theorem c7_witness :
    (⟨some 3, 0, false⟩ : Scope Nat).free ∧
    (run (.withFn Prog.pure) (⟨some 3, 0, false⟩ : Scope Nat) =
        (.ok (some 3), ⟨some 3, 0, false⟩, [Event.read (some 3)]) ∧
      (run (T := Nat) (.withFn Prog.pure) ⟨some 3, 0, false⟩).2.1 =
        ⟨some 3, 0, false⟩) :=
  ⟨⟨rfl, rfl⟩, c7_read_does_not_mutate Prog.pure ⟨some 3, 0, false⟩ ⟨rfl, rfl⟩⟩

/-- C4: for any finite nesting depth of `scoped` calls on the same cell in
one thread, a read observes the innermost active reference; immediately
after an inner call returns a read observes the outer reference again; and
returning or unwinding through the nested calls restores the saved states
in exactly reverse activation order, each restoration record carrying only
its immediate predecessor's value (the `nestTrace` log). -/
theorem c4_nesting_lifo {T R : Type} :
    (∀ (rs : List T) (s : Scope T), s.free →
      run (nest rs (.withFn Prog.pure)) s =
        (.ok (innermost s.current rs), s,
          nestTrace s.current rs [Event.read (innermost s.current rs)])) ∧
    (∀ (r1 r2 : T) (s : Scope T), s.free →
      run (.scoped r1 (.seq (.scoped r2 (.withFn Prog.pure))
          fun _ => .withFn Prog.pure)) s =
        (.ok (some r1), s,
          [Event.enter r1, Event.enter r2, Event.read (some r2),
           Event.restore (some r1), Event.read (some r1),
           Event.restore s.current])) ∧
    (∀ (rs : List T) (m : String) (s : Scope T), s.free →
      run (nest rs (.panicWith m : Prog T R)) s =
        (.panic (.userPanic m), s, nestTrace s.current rs [])) := by
  refine ⟨?_, ?_, ?_⟩
  · intro rs s h
    rw [Scope.free_eq h, run_nest,
      run_withFn_eq Prog.pure (⟨innermost s.current rs, 0, false⟩ : Scope T)
        ⟨rfl, rfl⟩]
    rfl
  · intro r1 r2 s h
    have hinner : run (.scoped r2 (.withFn (Prog.pure (T := T))))
        (⟨some r1, 0, false⟩ : Scope T) =
        (.ok (some r2), ⟨some r1, 0, false⟩,
          [Event.enter r2, Event.read (some r2), Event.restore (some r1)]) := by
      rw [run_scoped_eq r2 (.withFn Prog.pure) _ ⟨rfl, rfl⟩,
        run_withFn_eq Prog.pure (⟨some r2, 0, false⟩ : Scope T) ⟨rfl, rfl⟩]
      rfl
    have houter : run (.seq (.scoped r2 (.withFn Prog.pure))
        fun _ => .withFn (Prog.pure (T := T))) (⟨some r1, 0, false⟩ : Scope T) =
        (.ok (some r1), ⟨some r1, 0, false⟩,
          [Event.enter r2, Event.read (some r2), Event.restore (some r1),
           Event.read (some r1)]) := by
      rw [run_seq_ok _ _ _ _ _ _ hinner,
        run_withFn_eq Prog.pure (⟨some r1, 0, false⟩ : Scope T) ⟨rfl, rfl⟩]
      rfl
    rw [run_scoped_eq r1 _ s h, houter]
    rfl
  · intro rs m s h
    rw [Scope.free_eq h, run_nest]
    rfl

/-- Witness for C4 at a concrete input: two nested publications on a fresh
cell; the read sees the innermost value and the restores run in reverse
activation order. -/
theorem c4_witness :
    (Scope.default Nat).free ∧
    run (T := Nat) (nest [1, 2] (.withFn Prog.pure)) (Scope.default Nat) =
      (.ok (some 2), Scope.default Nat,
        [Event.enter 1, Event.enter 2, Event.read (some 2),
         Event.restore (some 1), Event.restore none]) :=
  ⟨⟨rfl, rfl⟩,
    (c4_nesting_lifo (T := Nat) (R := Nat)).1 [1, 2] (Scope.default Nat)
      ⟨rfl, rfl⟩⟩

/-- C5: every `scoped` invocation executes its restore action exactly once
— its log carries the single `restore` appended after the body's events —
even though `cleanup` runs both explicitly and from the `Drop` impl on the
normal path: a record whose `scope` was already taken is a no-op, and
globally every run has exactly as many `restore` events as `enter`
events. -/
theorem c5_restore_exactly_once {T R : Type} :
    (∀ (v : T) (body : Prog T R) (s : Scope T), s.free →
      (run (.scoped v body) s).2.2 =
        Event.enter v ::
          ((run body ⟨some v, 0, false⟩).2.2 ++ [Event.restore s.current])) ∧
    (∀ (prev : Option T) (s : Scope T),
      CleanupOnDrop.cleanup ⟨false, prev⟩ s = some (⟨false, prev⟩, s, [])) ∧
    (∀ (p : Prog T R) (s : Scope T), s.free →
      ((run p s).2.2).countP Event.isEnter =
        ((run p s).2.2).countP Event.isRestore) := by
  refine ⟨?_, ?_, ?_⟩
  · intro v body s h
    rw [run_scoped_eq v body s h]
  · intro prev s
    rfl
  · intro p s h
    rw [Scope.free_eq h]
    exact run_count_eq p s.current

/-- Witness for C5 at a concrete input: one publication plus one read on a
fresh cell logs exactly one `restore`. -/
theorem c5_witness :
    (Scope.default Nat).free ∧
    (run (T := Nat) (.scoped 2 (.withFn Prog.pure)) (Scope.default Nat)).2.2 =
      [Event.enter 2, Event.read (some 2), Event.restore none] :=
  ⟨⟨rfl, rfl⟩,
    (c5_restore_exactly_once (T := Nat) (R := Option Nat)).1 2
      (.withFn Prog.pure) (Scope.default Nat) ⟨rfl, rfl⟩⟩

/-- C8: a normally returning body's value is returned by `scoped`
unchanged, and the `src/helper.rs` wrappers add no state and no failure
modes: each only looks up the calling thread's cell for the slot,
delegates to the cell's own operation (same outcome, same events, same new
cell state) and leaves every other thread's and slot's cell untouched. -/
theorem c8_propagation_and_helpers {T R : Type} :
    (∀ (r : T) (body : Prog T R) (s : Scope T) (v : R), s.free →
      (run body ⟨some r, 0, false⟩).1 = .ok v →
      (run (.scoped r body) s).1 = .ok v) ∧
    (∀ (t slot : Nat) (sys : Sys T) (value : T) (body : Prog T R),
      (helperScoped t slot sys value body).1 =
          (run (.scoped value body) (sys t slot)).1 ∧
        (helperScoped t slot sys value body).2.1 t slot =
          (run (.scoped value body) (sys t slot)).2.1 ∧
        (helperScoped t slot sys value body).2.2 =
          (run (.scoped value body) (sys t slot)).2.2 ∧
        ∀ u sl, u ≠ t ∨ sl ≠ slot →
          (helperScoped t slot sys value body).2.1 u sl = sys u sl) ∧
    (∀ (t slot : Nat) (sys : Sys T) (k : Option T → Prog T R),
      (helperWith t slot sys k).1 = (run (.withFn k) (sys t slot)).1 ∧
        (helperWith t slot sys k).2.1 t slot =
          (run (.withFn k) (sys t slot)).2.1 ∧
        ∀ u sl, u ≠ t ∨ sl ≠ slot →
          (helperWith t slot sys k).2.1 u sl = sys u sl) := by
  refine ⟨?_, ?_, ?_⟩
  · intro r body s v h hb
    rw [run_scoped_eq r body s h]
    exact hb
  · intro t slot sys value body
    rcases hr : run (.scoped value body) (sys t slot) with ⟨o, s', l⟩
    have hh : helperScoped t slot sys value body =
        (o, Function.update sys t (Function.update (sys t) slot s'), l) := by
      simp [helperScoped, hr]
    refine ⟨?_, ?_, ?_, ?_⟩
    · rw [hh]
    · rw [hh]
      simp
    · rw [hh]
    · intro u sl hu
      rw [hh]
      rcases hu with hu | hsl
      · simp [Function.update_noteq hu]
      · by_cases hut : u = t
        · subst hut
          simp [Function.update_noteq hsl]
        · simp [Function.update_noteq hut]
  · intro t slot sys k
    rcases hr : run (.withFn k) (sys t slot) with ⟨o, s', l⟩
    have hh : helperWith t slot sys k =
        (o, Function.update sys t (Function.update (sys t) slot s'), l) := by
      simp [helperWith, hr]
    refine ⟨?_, ?_, ?_⟩
    · rw [hh]
    · rw [hh]
      simp
    · intro u sl hu
      rw [hh]
      rcases hu with hu | hsl
      · simp [Function.update_noteq hu]
      · by_cases hut : u = t
        · subst hut
          simp [Function.update_noteq hsl]
        · simp [Function.update_noteq hut]

/-- Witness for C8 at a concrete input: a body returning `7` under a
published `1` on a fresh cell. -/
theorem c8_witness :
    ((Scope.default Nat).free ∧
      (run (T := Nat) (.pure 7) ⟨some 1, 0, false⟩).1 = .ok 7) ∧
    (run (T := Nat) (.scoped 1 (.pure 7)) (Scope.default Nat)).1 = .ok 7 :=
  ⟨⟨⟨rfl, rfl⟩, rfl⟩,
    (c8_propagation_and_helpers (T := Nat) (R := Nat)).1 1 (.pure 7)
      (Scope.default Nat) 7 ⟨rfl, rfl⟩ rfl⟩

/-- C9: no internal borrow of the `RefCell` is held while a caller-supplied
body runs: `get`, `set` and `take` each release their borrow before
returning and `with` obtains its snapshot before invoking the body, so
every properly nested program of `scoped` / `with` calls on one thread —
including bodies that reentrantly call back into the same cell — never
reaches the borrow-failure panic from any borrow-free start state. -/
theorem c9_no_borrow_panic {T R : Type} (p : Prog T R) (s : Scope T)
    (h : s.free) :
    (run p s).1 ≠ Outcome.panic PanicKind.borrowPanic :=
  run_no_borrow p s h

/-- Witness for C9 at a concrete input: a read body that reentrantly opens
a nested scope on the same cell runs without a borrow panic. -/
theorem c9_witness :
    (Scope.default Nat).free ∧
    (run (T := Nat)
        (.scoped 1 (.withFn fun _ => .scoped 2 (.withFn Prog.pure)))
        (Scope.default Nat)).1 ≠ Outcome.panic PanicKind.borrowPanic :=
  ⟨⟨rfl, rfl⟩,
    c9_no_borrow_panic
      (.scoped 1 (.withFn fun _ => .scoped 2 (.withFn Prog.pure)))
      (Scope.default Nat) ⟨rfl, rfl⟩⟩

/-- C10: under an arbitrary interleaving of cell accesses by any number of
threads starting from the registry `std::thread_local!` provides (one
independently initialized, exclusively owned cell per thread and slot),
the whole memory of thread `t` — hence everything a read on `t` can
observe — ends in exactly the state produced by `t`'s own accesses alone,
so a publish on a concurrently running different thread is never observed
by a read on `t` for any slot. -/
theorem c10_thread_isolation {T : Type} (trace : List (Nat × Nat × CellOp T))
    (t : Nat) :
    ∃ sys', execSys trace (Sys.init T) = some sys' ∧
      execMem (ownOps t trace) (Mem.init T) = some (sys' t) := by
  obtain ⟨sys', hexec, _, hloc⟩ :=
    execSys_localizes trace (Sys.init T) fun u sl => ⟨rfl, rfl⟩
  exact ⟨sys', hexec, hloc t⟩

end ThreadScopedRef
